import Mathlib

/-!
Shallow embedding of `TexConvert.py` (DayZ Texture Exporter): the channel
packer (`load_grayscale`, `convert_to_png`) and the conversion orchestrator
(`ConvertWorker.run`), together with the UI-side job-start validation
(`TextureExporterUI._run`).  GUI widgetry, settings persistence and PIL /
OS internals are modelled at their interfaces: a file system is a map from
paths to decoded images, the external converter is an environment giving
each spawned process an exit code and stderr text, and PIL's LANCZOS
resampling filter is an arbitrary resample function (claims depend only on
when it is applied, not on its arithmetic).
-/

namespace TexConvert

/-- A single-band image: dimensions plus a pixel lookup, mirroring a PIL
band such as a result of `Image.split` or `Image.new("L", size, 255)`. -/
structure GrayImg where
  width : Nat
  height : Nat
  pix : Nat → Nat → Nat

/-- PIL image modes relevant to `load_grayscale`: the pass-through tuple
`("L", "I;16", "I")` from line 22 of the source, and color/palette modes
that get sent through `convert("L")`. -/
inductive PILMode
  | L
  | I16
  | I32
  | RGB
  | RGBA
  | P
  | LA
  deriving DecidableEq, Repr

/-- A decoded source image as returned by `Image.open`: its PIL mode, its
size, and its pixel data viewed as RGB triples.  For single-channel modes
(`L`, `I;16`, `I`) the band value is the first component and the triple is
`(v, v, v)`. -/
structure SrcImage where
  mode : PILMode
  width : Nat
  height : Nat
  px : Nat → Nat → Nat × Nat × Nat

/-- The single band of a single-channel source image. -/
def SrcImage.band (im : SrcImage) : GrayImg :=
  ⟨im.width, im.height, fun x y => (im.px x y).1⟩

/-- ITU-R 601-2 luma transform performed by PIL for `convert("L")` from a
color mode: `L = (19595 R + 38470 G + 7471 B + 32768) >> 16`. -/
def lumaL (p : Nat × Nat × Nat) : Nat :=
  (19595 * p.1 + 38470 * p.2.1 + 7471 * p.2.2 + 32768) / 65536

/-- PIL `img.convert("L")` applied to a color-mode source. -/
def SrcImage.toL (im : SrcImage) : GrayImg :=
  ⟨im.width, im.height, fun x y => lumaL (im.px x y)⟩

/-- A 3-band RGB image, as produced by `Image.merge("RGB", ...)` or
`convert("RGB")`. -/
structure RGBImg where
  width : Nat
  height : Nat
  r : Nat → Nat → Nat
  g : Nat → Nat → Nat
  b : Nat → Nat → Nat

/-- PIL `img.convert("RGB")`: the RGB view of the source pixels. -/
def SrcImage.toRGB (im : SrcImage) : RGBImg :=
  { width := im.width, height := im.height,
    r := fun x y => (im.px x y).1,
    g := fun x y => (im.px x y).2.1,
    b := fun x y => (im.px x y).2.2 }

/-- A resampling filter in the role of PIL's `Image.LANCZOS`: it takes a
band and a target size and yields the resampled band. -/
abbrev Resample := GrayImg → Nat × Nat → GrayImg

/-- PIL `Image.resize` resamples each band independently; an RGB resize is
the per-band application of the filter. -/
def RGBImg.resizeWith (resample : Resample) (im : RGBImg) (size : Nat × Nat) : RGBImg :=
  { width := size.1, height := size.2,
    r := (resample ⟨im.width, im.height, im.r⟩ size).pix,
    g := (resample ⟨im.width, im.height, im.g⟩ size).pix,
    b := (resample ⟨im.width, im.height, im.b⟩ size).pix }

/-- The `src.resize(size, Image.LANCZOS) if src.size != size else src`
pattern of `convert_to_png` (lines 59 and 67). -/
def RGBImg.resizeIfNeeded (resample : Resample) (im : RGBImg) (size : Nat × Nat) : RGBImg :=
  if (im.width, im.height) ≠ size then im.resizeWith resample size else im

/-- Result of `load_grayscale`: a single band together with the PIL mode
it ended up in (the input mode for `L` / `I;16` / `I` sources, mode `L`
otherwise). -/
structure LImage where
  mode : PILMode
  img : GrayImg

/-- Lines 20-26 of the source: open the image (here: already decoded),
convert to `L` unless the mode is one of `("L", "I;16", "I")`, and resize
with LANCZOS only when the size differs from the target. -/
def load_grayscale (resample : Resample) (im : SrcImage) (size : Nat × Nat) : LImage :=
  let pass := im.mode = PILMode.L ∨ im.mode = PILMode.I16 ∨ im.mode = PILMode.I32
  let m := if pass then im.mode else PILMode.L
  let g0 := if pass then im.band else im.toL
  let g1 := if (g0.width, g0.height) ≠ size then resample g0 size else g0
  ⟨m, g1⟩

/-- The 8-bit inversion `255 - v` used by `Image.eval(g, lambda v: 255 - v)`
(line 65) and `rough.point(lambda p: 255 - p)` (line 76). -/
def invert8 (v : Nat) : Nat := 255 - v

/-- The `co` variant (lines 57-59): BaseColor converted to RGB, resized if
needed. -/
def coImage (resample : Resample) (im : SrcImage) (size : Nat × Nat) : RGBImg :=
  im.toRGB.resizeIfNeeded resample size

/-- The `nohq` variant (lines 60-67): Normal converted to RGB; if the
convention is OpenGL the green band is inverted; resized if needed. -/
def nohqImage (resample : Resample) (im : SrcImage) (size : Nat × Nat)
    (convention : String) : RGBImg :=
  let n := im.toRGB
  let n2 := if convention = "OpenGL" then { n with g := fun x y => invert8 (n.g x y) } else n
  n2.resizeIfNeeded resample size

/-- The `as` variant (lines 72-74): `merge("RGB", (white, ao, white))`
with `ao` the grayscale-loaded AO map. -/
def asImage (resample : Resample) (ao : SrcImage) (size : Nat × Nat) : RGBImg :=
  { width := size.1, height := size.2,
    r := fun _ _ => 255,
    g := (load_grayscale resample ao size).img.pix,
    b := fun _ _ => 255 }

/-- The `smdi` variant (lines 75-77): `merge("RGB", (white, metal, gloss))`
with `gloss = rough.point(lambda p: 255 - p)`. -/
def smdiImage (resample : Resample) (metal rough : SrcImage) (size : Nat × Nat) : RGBImg :=
  { width := size.1, height := size.2,
    r := fun _ _ => 255,
    g := (load_grayscale resample metal size).img.pix,
    b := fun x y => invert8 ((load_grayscale resample rough size).img.pix x y) }

/-- The `input_paths` dictionary keyed by the five semantic channel names. -/
structure InputPaths where
  baseColor : String
  normal : String
  ao : String
  metallic : String
  roughness : String

/-- The `ConvertJob` dataclass (lines 36-44). -/
structure ConvertJob where
  input_paths : InputPaths
  output_dir : String
  base_name : String
  size : Nat
  selections : List String
  normal_convention : String
  converter_path : String

/-- The output path `os.path.join(job.output_dir, f"..._{key}.png")` of
line 78, with the separator fixed to a forward slash. -/
def outPath (job : ConvertJob) (key : String) : String :=
  job.output_dir ++ "/" ++ job.base_name ++ "_" ++ key ++ ".png"

/-- The file system visible to `Image.open`: a path either decodes to an
image or fails to open. -/
abbrev FS := String → Option SrcImage

/-- PIL `Image.open(path)`: raises (here: returns an error) when the path
is missing, unreadable or not a valid image. -/
def openImage (fs : FS) (path : String) : Except String SrcImage :=
  match fs path with
  | some im => Except.ok im
  | none => Except.error ("cannot identify image file " ++ path)

/-- The body of the `for key in job.selections` dispatch (lines 56-77):
`co`, then `nohq`, then the else-branch which loads AO, Metallic and
Roughness before distinguishing `as` from `smdi`. -/
def convertOne (resample : Resample) (fs : FS) (job : ConvertJob) (key : String) :
    Except String RGBImg :=
  let size := (job.size, job.size)
  if key = "co" then
    match openImage fs job.input_paths.baseColor with
    | Except.error e => Except.error e
    | Except.ok im => Except.ok (coImage resample im size)
  else if key = "nohq" then
    match openImage fs job.input_paths.normal with
    | Except.error e => Except.error e
    | Except.ok im => Except.ok (nohqImage resample im size job.normal_convention)
  else
    match openImage fs job.input_paths.ao with
    | Except.error e => Except.error e
    | Except.ok _ao =>
      match openImage fs job.input_paths.metallic with
      | Except.error e => Except.error e
      | Except.ok metal =>
        match openImage fs job.input_paths.roughness with
        | Except.error e => Except.error e
        | Except.ok rough =>
          if key = "as" then Except.ok (asImage resample _ao size)
          else Except.ok (smdiImage resample metal rough size)

/-- Sequential effectful map: the first failure aborts the whole loop,
exactly like an exception escaping the `for key in job.selections` loop. -/
def mapME {α β : Type} (f : α → Except String β) : List α → Except String (List β)
  | [] => Except.ok []
  | a :: as =>
    match f a with
    | Except.error e => Except.error e
    | Except.ok bv =>
      match mapME f as with
      | Except.error e => Except.error e
      | Except.ok bs => Except.ok (bv :: bs)

/-- `convert_to_png` (lines 51-81): for each selected key, compute the
packed image and save it under `outPath`; returns the saved (path, image)
pairs in selection order. -/
def convert_to_png (resample : Resample) (fs : FS) (job : ConvertJob) :
    Except String (List (String × RGBImg)) :=
  mapME (fun key =>
    match convertOne resample fs job key with
    | Except.error e => Except.error e
    | Except.ok img => Except.ok (outPath job key, img)) job.selections

/-- The list of saved PNG paths when packing succeeds, `none` when it
raises. -/
def packPaths (resample : Resample) (fs : FS) (job : ConvertJob) : Option (List String) :=
  match convert_to_png resample fs job with
  | Except.ok outs => some (outs.map Prod.fst)
  | Except.error _ => none

/-- Boolean prefix test on character lists. -/
def isPre : List Char → List Char → Bool
  | [], _ => true
  | _ :: _, [] => false
  | a :: as, b :: bs => if a = b then isPre as bs else false

/-- Boolean substring test: Python's `pat in s` on the character lists. -/
def containsSub (pat : List Char) : List Char → Bool
  | [] => pat.isEmpty
  | c :: rest => isPre pat (c :: rest) || containsSub pat rest

/-- Python `pat in s` on strings. -/
def strContains (s pat : String) : Bool := containsSub pat.data s.data

/-- Python `str.lower()` (ASCII-faithful). -/
def lowerStr (s : String) : String := ⟨s.data.map Char.toLower⟩

/-- `os.path.basename`: the final path component, splitting on both
separators as on Windows. -/
def basename (p : String) : String :=
  ⟨p.data.foldl (fun acc c => if c = '/' ∨ c = '\\' then [] else acc ++ [c]) []⟩

/-- Helper for `pyReplace`: scans left to right; on a match of `pat` the
whole occurrence is consumed and `rep` is emitted (Python's non-overlapping
`str.replace` semantics).  Fuel is the remaining input length, which always
suffices because each step consumes at least one character. -/
def pyReplaceAux (pat rep : List Char) : Nat → List Char → List Char
  | _, [] => []
  | 0, s => s
  | fuel + 1, c :: rest =>
    if isPre pat (c :: rest) && !pat.isEmpty then
      rep ++ pyReplaceAux pat rep fuel (List.drop (pat.length - 1) rest)
    else
      c :: pyReplaceAux pat rep fuel rest

/-- Python `s.replace(pat, rep)` for non-empty `pat`, as used by
`png.replace(".png", ".paa")` on line 127: every occurrence of `pat`
anywhere in `s` is replaced. -/
def pyReplace (s pat rep : String) : String :=
  ⟨pyReplaceAux pat.data rep.data s.data.length s.data⟩

/-- Environment of the worker run: the exit code and captured stderr of
the k-th spawned external process, and the value the `_cancel` flag has at
the k-th time it is polled (it is set asynchronously by `cancel()`). -/
structure ProcEnv where
  exitCode : Nat → Nat
  stderrTxt : Nat → String
  cancelFlag : Nat → Bool

/-- Observable events of `ConvertWorker.run`, in emission order: a spawned
external process (with its argument list), a `progress.emit` value, and the
terminal `done.emit(ok, paths, err)`. -/
inductive Ev
  | call (cmd : List String)
  | prog (v : Nat)
  | doneE (ok : Bool) (paths : List String) (err : String)
  deriving DecidableEq, Repr

/-- The external processes spawned during a trace, in order. -/
def callsOf (t : List Ev) : List (List String) :=
  t.filterMap fun e =>
    match e with
    | Ev.call c => some c
    | _ => none

/-- Python `str(CalledProcessError)`, used when the captured stderr is
empty. -/
def cpeStr (cmd : List String) (code : Nat) : String :=
  "Command " ++ String.intercalate " " cmd ++ " returned non-zero exit status " ++
    toString code ++ "."

/-- Line 139: `e.stderr.decode(...) if e.stderr else str(e)`. -/
def procErr (env : ProcEnv) (cidx : Nat) (cmd : List String) : String :=
  if env.stderrTxt cidx ≠ "" then env.stderrTxt cidx else cpeStr cmd (env.exitCode cidx)

/-- Lines 104-109: the loop reporting each saved PNG.  Returns the emitted
events, the next poll index and whether cancellation was observed.  `i` is
the 1-based index from `enumerate(..., start=1)`; the progress value is
`int(20 + (i / max(1, n)) * 40)`, i.e. `20 + 40 * i / max 1 n` since the
float arithmetic is exact enough that truncation equals the integer floor. -/
def saveLoop (env : ProcEnv) (n : Nat) : Nat → Nat → List String → List Ev × Nat × Bool
  | poll, _, [] => ([], poll, false)
  | poll, i, _ :: rest =>
    if env.cancelFlag poll then ([Ev.doneE false [] "Cancelled"], poll + 1, true)
    else
      let r := saveLoop env n (poll + 1) (i + 1) rest
      (Ev.prog (20 + 40 * i / max 1 n) :: r.1, r.2.1, r.2.2)

/-- The per-file command of lines 127-128: the PNG path and
`png.replace(".png", ".paa")`. -/
def cmdFor (conv png : String) : List String := [conv, png, pyReplace png ".png" ".paa"]

/-- Lines 122-134: the ImageToPAA per-file loop.  `poll` counts `_cancel`
polls, `cidx` counts spawned processes, `j` is the 1-based enumerate index.
Returns the emitted events and whether the loop ran to completion (false on
cancellation or on a process exiting non-zero, both of which emit their
`done` event and abort). -/
def perFileLoop (env : ProcEnv) (conv : String) (n : Nat) :
    Nat → Nat → Nat → List String → List Ev × Bool
  | _, _, _, [] => ([], true)
  | poll, cidx, j, png :: rest =>
    if env.cancelFlag poll then ([Ev.doneE false [] "Cancelled"], false)
    else
      let cmd := cmdFor conv png
      if env.exitCode cidx ≠ 0 then
        ([Ev.call cmd, Ev.doneE false [] ("Converter error: " ++ procErr env cidx cmd)], false)
      else
        let r := perFileLoop env conv n (poll + 1) (cidx + 1) (j + 1) rest
        (Ev.call cmd :: Ev.prog (60 + 40 * j / max 1 n) :: r.1, r.2)

/-- `ConvertWorker.run` (lines 100-142) as an event trace: pack to PNG
(a packing exception is caught by the generic handler on line 141), report
each saved file with cancellation checkpoints, then either one batch
invocation of PAAConverter (chosen when `"paaconverter.exe"` occurs in the
lowercased basename of the converter path) or one invocation per PNG, and
finally `progress(100)` and `done(True, pngs, "")` on success. -/
def workerRun (resample : Resample) (fs : FS) (env : ProcEnv) (job : ConvertJob) : List Ev :=
  match convert_to_png resample fs job with
  | Except.error e => [Ev.doneE false [] ("Unexpected error: " ++ e)]
  | Except.ok outs =>
    let pngs := outs.map Prod.fst
    let n := pngs.length
    let s := saveLoop env n 0 1 pngs
    if s.2.2 then s.1
    else
      let exe := lowerStr (basename job.converter_path)
      if containsSub "paaconverter.exe".data exe.data then
        let cmd := [job.converter_path, "-batch", job.output_dir, "-output",
          job.output_dir, "-quiet"]
        if env.exitCode 0 ≠ 0 then
          s.1 ++ [Ev.call cmd, Ev.doneE false [] ("Converter error: " ++ procErr env 0 cmd)]
        else
          s.1 ++ [Ev.call cmd, Ev.prog 100, Ev.doneE true pngs ""]
      else
        let r := perFileLoop env job.converter_path n s.2.1 0 1 pngs
        if r.2 then s.1 ++ r.1 ++ [Ev.prog 100, Ev.doneE true pngs ""]
        else s.1 ++ r.1

/-- The UI fields consulted by `TextureExporterUI._run` before a job is
started (lines 473-482). -/
structure UIState where
  input_paths : InputPaths
  base_text : String
  output_dir : String
  converter_path : String
  selections : List String

/-- Python `str.strip()`: whitespace removed from both ends. -/
def stripStr (s : String) : String :=
  ⟨((s.data.dropWhile Char.isWhitespace).reverse.dropWhile Char.isWhitespace).reverse⟩

/-- Lines 474-482: `_run` refuses to start a worker when any of the five
input paths is the empty string, the stripped base name is empty, no output
directory or converter is set, or no texture type is checked. -/
def uiStartsJob (st : UIState) : Bool :=
  let missing := st.input_paths.baseColor = "" ∨ st.input_paths.normal = "" ∨
    st.input_paths.ao = "" ∨ st.input_paths.metallic = "" ∨ st.input_paths.roughness = ""
  if missing ∨ stripStr st.base_text = "" ∨ st.output_dir = "" ∨ st.converter_path = "" then
    false
  else if st.selections = [] then false
  else true

/-- Modelled from the spec: PIL's `Image.LANCZOS` resampling filter is
external library code, not part of this repository.  The spec calls it a
"high-quality (area-averaging / Lanczos-class) filter"; it is modelled as
a box average of the source block mapped to each target pixel.  Claims
never depend on the filter's arithmetic, only on when the code applies it,
so the theorems quantify over an arbitrary `Resample` and use this one as
a concrete instance in witnesses. -/
def lanczosBox (gr : GrayImg) (size : Nat × Nat) : GrayImg :=
  { width := size.1, height := size.2,
    pix := fun x y =>
      let x0 := x * gr.width / size.1
      let x1 := max (x0 + 1) ((x + 1) * gr.width / size.1)
      let y0 := y * gr.height / size.2
      let y1 := max (y0 + 1) ((y + 1) * gr.height / size.2)
      let xs := (List.range (x1 - x0)).map (· + x0)
      let ys := (List.range (y1 - y0)).map (· + y0)
      ((xs.map fun i => (ys.map fun j => gr.pix i j).sum).sum) / ((x1 - x0) * (y1 - y0)) }

/-- A second concrete resample function, used only to witness statements of
the form "the result does not depend on the resampling filter". -/
def resampleConst (_ : GrayImg) (size : Nat × Nat) : GrayImg :=
  ⟨size.1, size.2, fun _ _ => 0⟩

/-- Membership transport through the sequential effectful map: when the
whole loop succeeds, every element of the input was processed successfully
and its result is in the output. -/
theorem mapME_mem {α β : Type} {f : α → Except String β} {l : List α} {out : List β}
    (h : mapME f l = Except.ok out) {a : α} (ha : a ∈ l) :
    ∃ bv, f a = Except.ok bv ∧ bv ∈ out := by
  induction l generalizing out with
  | nil => cases ha
  | cons x xs ih =>
    unfold mapME at h
    cases hfx : f x with
    | error e => rw [hfx] at h; cases h
    | ok bv =>
      rw [hfx] at h
      cases hrest : mapME f xs with
      | error e => rw [hrest] at h; cases h
      | ok bs =>
        rw [hrest] at h
        cases h
        cases ha with
        | head => exact ⟨bv, hfx, List.mem_cons_self _ _⟩
        | tail _ htl =>
          obtain ⟨bw, h1, h2⟩ := ih hrest htl
          exact ⟨bw, h1, List.mem_cons_of_mem _ h2⟩

/-- C1: for every job whose selections include `smdi`, the produced smdi
image has, at every pixel, red channel 255, green channel equal to the
resized single-channel Metallic input, and blue channel equal to 255 minus
the resized single-channel Roughness value (stated additively so that the
subtraction is exact). -/
theorem C1_smdi_channels (resample : Resample) (fs : FS) (job : ConvertJob)
    (ms rs : SrcImage) (outs : List (String × RGBImg))
    (hm : fs job.input_paths.metallic = some ms)
    (hr : fs job.input_paths.roughness = some rs)
    (hsel : "smdi" ∈ job.selections)
    (hok : convert_to_png resample fs job = Except.ok outs)
    (h8 : ∀ x y, (load_grayscale resample rs (job.size, job.size)).img.pix x y ≤ 255) :
    (outPath job "smdi", smdiImage resample ms rs (job.size, job.size)) ∈ outs ∧
      ∀ x y,
        (smdiImage resample ms rs (job.size, job.size)).r x y = 255 ∧
        (smdiImage resample ms rs (job.size, job.size)).g x y =
          (load_grayscale resample ms (job.size, job.size)).img.pix x y ∧
        (smdiImage resample ms rs (job.size, job.size)).b x y +
          (load_grayscale resample rs (job.size, job.size)).img.pix x y = 255 := by
  unfold convert_to_png at hok
  obtain ⟨bv, hf, hmem⟩ := mapME_mem hok hsel
  cases hco : convertOne resample fs job "smdi" with
  | error e => rw [hco] at hf; cases hf
  | ok img =>
    rw [hco] at hf
    cases hf
    simp only [convertOne, openImage, hm, hr] at hco
    cases hao : fs job.input_paths.ao with
    | none => simp [hao] at hco
    | some a =>
      simp [hao] at hco
      constructor
      · rw [hco]; exact hmem
      · intro x y
        refine ⟨rfl, rfl, ?_⟩
        have := h8 x y
        show invert8 _ + _ = 255
        unfold invert8
        omega

/-- C2: for every job whose selections include `as`, the produced as image
has red and blue channels uniformly 255, and its green channel equals the
AO input loaded as grayscale and resized to the target size. -/
theorem C2_as_channels (resample : Resample) (fs : FS) (job : ConvertJob)
    (aoImg : SrcImage) (outs : List (String × RGBImg))
    (hao : fs job.input_paths.ao = some aoImg)
    (hsel : "as" ∈ job.selections)
    (hok : convert_to_png resample fs job = Except.ok outs) :
    (outPath job "as", asImage resample aoImg (job.size, job.size)) ∈ outs ∧
      ∀ x y,
        (asImage resample aoImg (job.size, job.size)).r x y = 255 ∧
        (asImage resample aoImg (job.size, job.size)).b x y = 255 ∧
        (asImage resample aoImg (job.size, job.size)).g x y =
          (load_grayscale resample aoImg (job.size, job.size)).img.pix x y := by
  unfold convert_to_png at hok
  obtain ⟨bv, hf, hmem⟩ := mapME_mem hok hsel
  cases hco : convertOne resample fs job "as" with
  | error e => rw [hco] at hf; cases hf
  | ok img =>
    rw [hco] at hf
    cases hf
    simp only [convertOne, openImage, hao] at hco
    cases hmt : fs job.input_paths.metallic with
    | none => simp [hmt] at hco
    | some m =>
      cases hrg : fs job.input_paths.roughness with
      | none => simp [hmt, hrg] at hco
      | some r =>
        simp [hmt, hrg] at hco
        constructor
        · rw [hco]; exact hmem
        · intro x y; exact ⟨rfl, rfl, rfl⟩

/-- C3: producing the `nohq` variant with the OpenGL convention changes
only the green channel relative to the DirectX pass-through of the same
source: the red and blue channels of the two results are bit-identical,
and the green inversion applied twice restores the source green channel
exactly. -/
theorem C3_nohq_convention (resample : Resample) (fs : FS) (job : ConvertJob)
    (ns : SrcImage) (oImg dImg : RGBImg)
    (hn : fs job.input_paths.normal = some ns)
    (hconv : job.normal_convention = "OpenGL")
    (hO : convertOne resample fs job "nohq" = Except.ok oImg)
    (hD : convertOne resample fs { job with normal_convention := "DirectX" } "nohq" =
      Except.ok dImg) :
    (∀ x y, oImg.r x y = dImg.r x y ∧ oImg.b x y = dImg.b x y) ∧
      ∀ x y, ns.toRGB.g x y ≤ 255 →
        invert8 (invert8 (ns.toRGB.g x y)) = ns.toRGB.g x y := by
  simp only [convertOne, openImage, hn, hconv] at hO hD
  simp at hO hD
  constructor
  · intro x y
    rw [← hO, ← hD]
    simp only [nohqImage, RGBImg.resizeIfNeeded, RGBImg.resizeWith]
    simp only [show ("DirectX" = "OpenGL") = False from by simp,
      ite_true, ite_false, ne_eq, Prod.mk.injEq, not_and]
    by_cases hc : (ns.toRGB.width = job.size → ¬ns.toRGB.height = job.size)
    · rw [if_pos hc, if_pos hc]
      exact ⟨rfl, rfl⟩
    · rw [if_neg hc, if_neg hc]
      exact ⟨rfl, rfl⟩
  · intro x y h
    unfold invert8
    omega

/-- C4: the 8-bit inversion used for gloss and for the OpenGL normal
conversion is an exact involution on [0,255]. -/
theorem C4_invert8_involution (p : Nat) (h : p ≤ 255) : invert8 (invert8 p) = p := by
  unfold invert8; omega

/-- C4 witness: the involution evaluated at the concrete value 7. -/
theorem C4_invert8_involution_witness : 7 ≤ 255 ∧ invert8 (invert8 7) = 7 :=
  ⟨by decide, C4_invert8_involution 7 (by decide)⟩

/-- Concrete 1x1 RGB test image with pixel (10, 20, 30). -/
def rgbProbe : SrcImage := ⟨PILMode.RGB, 1, 1, fun _ _ => (10, 20, 30)⟩

/-- Concrete 1x1 L-mode test image with band value 100. -/
def grayProbe : SrcImage := ⟨PILMode.L, 1, 1, fun _ _ => (100, 100, 100)⟩

/-- Concrete 1x1 I;16-mode image whose band value 300 exceeds the 8-bit
range (PIL loads 16-bit grayscale PNG/TIFF files in this mode). -/
def i16Probe : SrcImage := ⟨PILMode.I16, 1, 1, fun _ _ => (300, 300, 300)⟩

/-- Witness file system: five readable 1x1 inputs. -/
def fsW : FS := fun p =>
  if p = "bc.png" then some rgbProbe
  else if p = "n.png" then some rgbProbe
  else if p = "ao.png" then some grayProbe
  else if p = "m.png" then some grayProbe
  else if p = "r.png" then some grayProbe
  else none

/-- Witness job: all four variants at size 1, OpenGL normal convention. -/
def jobW : ConvertJob :=
  { input_paths := ⟨"bc.png", "n.png", "ao.png", "m.png", "r.png"⟩,
    output_dir := "/out", base_name := "tex", size := 1,
    selections := ["co", "nohq", "as", "smdi"], normal_convention := "OpenGL",
    converter_path := "/tools/ImageToPAA.exe" }

/-- The packed outputs of `jobW` over `fsW`. -/
def outsW : List (String × RGBImg) :=
  [(outPath jobW "co", coImage lanczosBox rgbProbe (1, 1)),
   (outPath jobW "nohq", nohqImage lanczosBox rgbProbe (1, 1) "OpenGL"),
   (outPath jobW "as", asImage lanczosBox grayProbe (1, 1)),
   (outPath jobW "smdi", smdiImage lanczosBox grayProbe grayProbe (1, 1))]

/-- C1 witness: the smdi theorem applied to the concrete job `jobW`. -/
theorem C1_smdi_channels_witness :
    (fsW jobW.input_paths.metallic = some grayProbe ∧
      fsW jobW.input_paths.roughness = some grayProbe ∧
      "smdi" ∈ jobW.selections ∧
      convert_to_png lanczosBox fsW jobW = Except.ok outsW ∧
      ∀ x y, (load_grayscale lanczosBox grayProbe (jobW.size, jobW.size)).img.pix x y ≤ 255) ∧
    (outPath jobW "smdi", smdiImage lanczosBox grayProbe grayProbe (jobW.size, jobW.size)) ∈
      outsW :=
  ⟨⟨rfl, rfl, by decide, rfl, fun _ _ => by show (100 : Nat) ≤ 255; decide⟩,
    (C1_smdi_channels lanczosBox fsW jobW grayProbe grayProbe outsW rfl rfl (by decide) rfl
      (fun _ _ => by show (100 : Nat) ≤ 255; decide)).1⟩

/-- C2 witness: the as theorem applied to the concrete job `jobW`. -/
theorem C2_as_channels_witness :
    (fsW jobW.input_paths.ao = some grayProbe ∧
      "as" ∈ jobW.selections ∧
      convert_to_png lanczosBox fsW jobW = Except.ok outsW) ∧
    (outPath jobW "as", asImage lanczosBox grayProbe (jobW.size, jobW.size)) ∈ outsW :=
  ⟨⟨rfl, by decide, rfl⟩,
    (C2_as_channels lanczosBox fsW jobW grayProbe outsW rfl (by decide) rfl).1⟩

/-- C3 witness: the convention theorem applied to the concrete normal map
`rgbProbe`, comparing channels at pixel (0, 0). -/
theorem C3_nohq_convention_witness :
    (fsW jobW.input_paths.normal = some rgbProbe ∧
      jobW.normal_convention = "OpenGL" ∧
      convertOne lanczosBox fsW jobW "nohq" =
        Except.ok (nohqImage lanczosBox rgbProbe (1, 1) "OpenGL") ∧
      convertOne lanczosBox fsW { jobW with normal_convention := "DirectX" } "nohq" =
        Except.ok (nohqImage lanczosBox rgbProbe (1, 1) "DirectX")) ∧
    ((nohqImage lanczosBox rgbProbe (1, 1) "OpenGL").r 0 0 =
        (nohqImage lanczosBox rgbProbe (1, 1) "DirectX").r 0 0 ∧
      (nohqImage lanczosBox rgbProbe (1, 1) "OpenGL").b 0 0 =
        (nohqImage lanczosBox rgbProbe (1, 1) "DirectX").b 0 0) :=
  ⟨⟨rfl, rfl, rfl, rfl⟩,
    (C3_nohq_convention lanczosBox fsW jobW rgbProbe
      (nohqImage lanczosBox rgbProbe (1, 1) "OpenGL")
      (nohqImage lanczosBox rgbProbe (1, 1) "DirectX") rfl rfl rfl rfl).1 0 0⟩

/-- Bound for the luma transform: 8-bit inputs give an 8-bit result. -/
theorem lumaL_le (p : Nat × Nat × Nat) (h1 : p.1 ≤ 255) (h2 : p.2.1 ≤ 255)
    (h3 : p.2.2 ≤ 255) : lumaL p ≤ 255 := by
  have a1 : 19595 * p.1 ≤ 19595 * 255 := Nat.mul_le_mul_left _ h1
  have a2 : 38470 * p.2.1 ≤ 38470 * 255 := Nat.mul_le_mul_left _ h2
  have a3 : 7471 * p.2.2 ≤ 7471 * 255 := Nat.mul_le_mul_left _ h3
  unfold lumaL
  omega

/-- C5 counterexample: an I;16-mode source is passed through `load_grayscale`
without conversion, so the result is neither in mode L nor 8-bit — its pixel
value 300 exceeds 255 — refuting "returns a single-channel 8-bit brightness
image" for every input. -/
theorem C5_counterexample :
    (load_grayscale lanczosBox i16Probe (1, 1)).mode ≠ PILMode.L ∧
      ¬(load_grayscale lanczosBox i16Probe (1, 1)).img.pix 0 0 ≤ 255 := by
  decide

/-- C5 (amended): grayscale loading converts to single-channel 8-bit L only
for sources outside the pass-through modes L / I;16 / I (those keep their
mode and depth); it applies the resampling filter exactly when the source
size differs from the target, and with equal sizes the result does not
depend on the filter at all and the pixel data is unchanged apart from the
mode conversion. -/
theorem C5_load_grayscale_amended (resample : Resample) (im : SrcImage) (size : Nat × Nat) :
    ((im.mode ≠ PILMode.L ∧ im.mode ≠ PILMode.I16 ∧ im.mode ≠ PILMode.I32) →
      (load_grayscale resample im size).mode = PILMode.L) ∧
    ((im.width, im.height) = size → ∀ resample' : Resample,
      load_grayscale resample im size = load_grayscale resample' im size) ∧
    ((im.width, im.height) = size → ∀ x y,
      (load_grayscale resample im size).img.pix x y =
        if im.mode = PILMode.L ∨ im.mode = PILMode.I16 ∨ im.mode = PILMode.I32
        then (im.px x y).1 else lumaL (im.px x y)) ∧
    ((∀ x y, (im.px x y).1 ≤ 255 ∧ (im.px x y).2.1 ≤ 255 ∧ (im.px x y).2.2 ≤ 255) →
      (∀ gb s, (∀ x y, gb.pix x y ≤ 255) → ∀ x y, (resample gb s).pix x y ≤ 255) →
      (im.mode ≠ PILMode.L ∧ im.mode ≠ PILMode.I16 ∧ im.mode ≠ PILMode.I32) →
      ∀ x y, (load_grayscale resample im size).img.pix x y ≤ 255) ∧
    ((im.mode = PILMode.L ∨ im.mode = PILMode.I16 ∨ im.mode = PILMode.I32) →
      (load_grayscale resample im size).mode = im.mode) ∧
    ((im.width, im.height) ≠ size →
      (load_grayscale resample im size).img =
        resample
          (if im.mode = PILMode.L ∨ im.mode = PILMode.I16 ∨ im.mode = PILMode.I32
           then im.band else im.toL) size) := by
  refine ⟨?_, ?_, ?_, ?_, ?_, ?_⟩
  · rintro ⟨h1, h2, h3⟩
    have hp : ¬(im.mode = PILMode.L ∨ im.mode = PILMode.I16 ∨ im.mode = PILMode.I32) := by
      rintro (h | h | h)
      exacts [h1 h, h2 h, h3 h]
    simp [load_grayscale, hp]
  · intro hsz resample'
    by_cases hp : (im.mode = PILMode.L ∨ im.mode = PILMode.I16 ∨ im.mode = PILMode.I32)
    · simp [load_grayscale, hp, SrcImage.band, hsz]
    · simp [load_grayscale, hp, SrcImage.toL, hsz]
  · intro hsz x y
    by_cases hp : (im.mode = PILMode.L ∨ im.mode = PILMode.I16 ∨ im.mode = PILMode.I32)
    · simp [load_grayscale, hp, SrcImage.band, hsz]
    · simp [load_grayscale, hp, SrcImage.toL, hsz]
  · intro hb hres hne
    have hp : ¬(im.mode = PILMode.L ∨ im.mode = PILMode.I16 ∨ im.mode = PILMode.I32) := by
      rintro (h | h | h)
      exacts [hne.1 h, hne.2.1 h, hne.2.2 h]
    intro x y
    have hL : ∀ x y, im.toL.pix x y ≤ 255 := fun x y =>
      lumaL_le _ (hb x y).1 (hb x y).2.1 (hb x y).2.2
    simp only [load_grayscale, hp, if_false, ite_false]
    split
    · exact hres _ _ hL x y
    · exact hL x y
  · intro hp
    simp [load_grayscale, hp]
  · intro hsz
    by_cases hp : (im.mode = PILMode.L ∨ im.mode = PILMode.I16 ∨ im.mode = PILMode.I32)
    · simp [load_grayscale, hp, SrcImage.band, hsz]
    · simp [load_grayscale, hp, SrcImage.toL, hsz]

/-- C5 witness: the amended theorem applied to concrete 1x1 images — the
RGB probe at its native size (mode-L conversion, filter independence), the
I;16 probe (pass-through mode preservation), and the L probe at a larger
target size (the filter is applied when the sizes differ). -/
theorem C5_load_grayscale_amended_witness :
    ((rgbProbe.mode ≠ PILMode.L ∧ rgbProbe.mode ≠ PILMode.I16 ∧
        rgbProbe.mode ≠ PILMode.I32) ∧
      (rgbProbe.width, rgbProbe.height) = ((1 : Nat), (1 : Nat)) ∧
      (i16Probe.mode = PILMode.L ∨ i16Probe.mode = PILMode.I16 ∨
        i16Probe.mode = PILMode.I32) ∧
      (grayProbe.width, grayProbe.height) ≠ ((2 : Nat), (2 : Nat))) ∧
    ((load_grayscale lanczosBox rgbProbe (1, 1)).mode = PILMode.L ∧
      load_grayscale lanczosBox rgbProbe (1, 1) =
        load_grayscale resampleConst rgbProbe (1, 1) ∧
      (load_grayscale lanczosBox i16Probe (1, 1)).mode = i16Probe.mode ∧
      (load_grayscale lanczosBox grayProbe (2, 2)).img =
        lanczosBox (SrcImage.band grayProbe) (2, 2)) :=
  ⟨⟨by decide, by decide, by decide, by decide⟩,
    (C5_load_grayscale_amended lanczosBox rgbProbe (1, 1)).1 (by decide),
    ((C5_load_grayscale_amended lanczosBox rgbProbe (1, 1)).2.1 (by decide)) resampleConst,
    (C5_load_grayscale_amended lanczosBox i16Probe (1, 1)).2.2.2.2.1 (by decide),
    (C5_load_grayscale_amended lanczosBox grayProbe (2, 2)).2.2.2.2.2 (by decide)⟩

/-- Reflexivity of the boolean prefix test. -/
theorem isPre_refl : ∀ l : List Char, isPre l l = true := by
  intro l
  induction l with
  | nil => rfl
  | cons c cs ih => simp [isPre, ih]

/-- A list contains itself as a substring. -/
theorem containsSub_self (l : List Char) : containsSub l l = true := by
  cases l with
  | nil => rfl
  | cons c cs => simp [containsSub, isPre_refl]

/-- A list contains any of its suffixes as a substring. -/
theorem containsSub_append_left (l : List Char) : ∀ x, containsSub l (x ++ l) = true := by
  intro x
  induction x with
  | nil => simpa using containsSub_self l
  | cons c cs ih =>
    cases l with
    | nil => simp [containsSub, isPre]
    | cons d ds => simp [containsSub, ih]

/-- A string contains its own suffix. -/
theorem strContains_append_right (a b : String) : strContains (a ++ b) b = true := by
  unfold strContains
  have : (a ++ b).data = a.data ++ b.data := rfl
  rw [this]
  exact containsSub_append_left _ _

/-- Every string contains the empty string. -/
theorem strContains_empty (s : String) : strContains s "" = true := by
  unfold strContains
  cases s.data with
  | nil => rfl
  | cons c cs => rfl

/-- The surfaced error message always contains the captured stderr text:
either the stderr is non-empty and is itself the suffix, or it is empty and
containment is trivial. -/
theorem strContains_procErr (pre : String) (env : ProcEnv) (cidx : Nat)
    (cmd : List String) :
    strContains (pre ++ procErr env cidx cmd) (env.stderrTxt cidx) = true := by
  unfold procErr
  by_cases hs : env.stderrTxt cidx ≠ ""
  · rw [if_pos hs]
    exact strContains_append_right _ _
  · rw [if_neg hs]
    push_neg at hs
    rw [hs]
    exact strContains_empty _

/-- Filtering calls distributes over trace concatenation. -/
theorem callsOf_append (a b : List Ev) : callsOf (a ++ b) = callsOf a ++ callsOf b :=
  List.filterMap_append _ _ _

/-- A progress event contributes no call. -/
theorem callsOf_cons_prog (v : Nat) (l : List Ev) : callsOf (Ev.prog v :: l) = callsOf l := rfl

/-- A call event contributes its command. -/
theorem callsOf_cons_call (c : List String) (l : List Ev) :
    callsOf (Ev.call c :: l) = c :: callsOf l := rfl

/-- A done event contributes no call. -/
theorem callsOf_cons_done (ok : Bool) (ps : List String) (e : String) (l : List Ev) :
    callsOf (Ev.doneE ok ps e :: l) = callsOf l := rfl

/-- The events `saveLoop` emits when cancellation is never observed. -/
def progEvs (n : Nat) : Nat → List String → List Ev
  | _, [] => []
  | i, _ :: rest => Ev.prog (20 + 40 * i / max 1 n) :: progEvs n (i + 1) rest

/-- With the cancel flag never set, the save-report loop runs to completion
emitting one progress event per file. -/
theorem saveLoop_noCancel (env : ProcEnv) (hc : ∀ k, env.cancelFlag k = false)
    (n : Nat) : ∀ pngs poll i,
    saveLoop env n poll i pngs = (progEvs n i pngs, poll + pngs.length, false) := by
  intro pngs
  induction pngs with
  | nil => intro poll i; simp [saveLoop, progEvs]
  | cons p rest ih =>
    intro poll i
    simp [saveLoop, progEvs, hc poll, ih (poll + 1) (i + 1)]
    omega

/-- The save-report loop spawns no external process. -/
theorem callsOf_progEvs (n : Nat) : ∀ pngs i, callsOf (progEvs n i pngs) = [] := by
  intro pngs
  induction pngs with
  | nil => intro i; rfl
  | cons p rest ih =>
    intro i
    rw [show progEvs n i (p :: rest) =
      Ev.prog (20 + 40 * i / max 1 n) :: progEvs n (i + 1) rest from rfl,
      callsOf_cons_prog]
    exact ih (i + 1)

/-- Every event of the save-report loop is a progress value below 100. -/
theorem progEvs_events (n : Nat) : ∀ pngs i, i + pngs.length ≤ n + 1 →
    ∀ e ∈ progEvs n i pngs, ∃ v, e = Ev.prog v ∧ v < 100 := by
  intro pngs
  induction pngs with
  | nil => intro i _ e he; cases he
  | cons p rest ih =>
    intro i hinv e he
    cases he with
    | head =>
      refine ⟨_, rfl, ?_⟩
      have hm : 0 < max 1 n := by omega
      have h1 : 40 * i ≤ 40 * max 1 n := by
        have : i ≤ max 1 n := by simp at hinv ⊢; omega
        omega
      have h2 : 40 * i / max 1 n ≤ 40 := by
        calc 40 * i / max 1 n ≤ 40 * max 1 n / max 1 n := Nat.div_le_div_right h1
          _ = 40 := Nat.mul_div_cancel _ hm
      omega
    | tail _ h => exact ih (i + 1) (by simp at hinv ⊢; omega) e h

/-- The events the per-file loop emits when it runs to completion: one
call and one progress value per PNG. -/
def pfEvs (conv : String) (n : Nat) : Nat → List String → List Ev
  | _, [] => []
  | j, png :: rest =>
    Ev.call (cmdFor conv png) :: Ev.prog (60 + 40 * j / max 1 n) :: pfEvs conv n (j + 1) rest

/-- With no cancellation and all exit codes zero, the per-file loop runs to
completion. -/
theorem perFileLoop_allOk (env : ProcEnv) (conv : String) (n : Nat)
    (hc : ∀ k, env.cancelFlag k = false) (he : ∀ c, env.exitCode c = 0) :
    ∀ pngs poll cidx j,
    perFileLoop env conv n poll cidx j pngs = (pfEvs conv n j pngs, true) := by
  intro pngs
  induction pngs with
  | nil => intro poll cidx j; rfl
  | cons p rest ih =>
    intro poll cidx j
    simp [perFileLoop, pfEvs, hc poll, he cidx, ih (poll + 1) (cidx + 1) (j + 1)]

/-- The completed per-file loop spawns exactly one process per PNG, in
order. -/
theorem callsOf_pfEvs (conv : String) (n : Nat) :
    ∀ pngs j, callsOf (pfEvs conv n j pngs) = pngs.map (cmdFor conv) := by
  intro pngs
  induction pngs with
  | nil => intro j; rfl
  | cons p rest ih =>
    intro j
    rw [show pfEvs conv n j (p :: rest) =
      Ev.call (cmdFor conv p) :: Ev.prog (60 + 40 * j / max 1 n) ::
        pfEvs conv n (j + 1) rest from rfl,
      callsOf_cons_call, callsOf_cons_prog, ih (j + 1)]
    rfl

/-- Any progress value of at least 100 inside the completed per-file trace
occurs only after all remaining calls: splitting the trace at such an event
puts every call in the left part. -/
theorem pfEvs_split (conv : String) (n : Nat) : ∀ pngs j, 0 < n →
    j + pngs.length = n + 1 →
    ∀ t₁ v t₂, pfEvs conv n j pngs = t₁ ++ Ev.prog v :: t₂ → 100 ≤ v →
    n + 1 ≤ j + (callsOf t₁).length := by
  intro pngs
  induction pngs with
  | nil =>
    intro j hn hinv t₁ v t₂ heq _
    rw [show pfEvs conv n j [] = [] from rfl] at heq
    cases t₁ <;> simp_all
  | cons p rest ih =>
    intro j hn hinv t₁ v t₂ heq hv
    rw [show pfEvs conv n j (p :: rest) =
      Ev.call (cmdFor conv p) :: Ev.prog (60 + 40 * j / max 1 n) ::
        pfEvs conv n (j + 1) rest from rfl] at heq
    match t₁ with
    | [] => simp at heq
    | [e1] =>
      simp only [List.cons_append, List.nil_append] at heq
      injection heq with h1 heq2
      injection heq2 with h2 heq3
      injection h2 with hw
      have hmx : max 1 n = n := Nat.max_eq_right hn
      rw [hmx] at hw
      have hjn : n ≤ j := by
        by_contra hlt
        push_neg at hlt
        have hd : 40 * j / n < 40 := by
          rw [Nat.div_lt_iff_lt_mul hn]
          omega
        omega
      subst h1
      rw [callsOf_cons_call]
      simp only [List.length_cons]
      omega
    | e1 :: e2 :: t₁' =>
      simp only [List.cons_append] at heq
      injection heq with h1 heq2
      injection heq2 with h2 heq3
      have hstep := ih (j + 1) hn (by simp at hinv ⊢; omega) t₁' v t₂ heq3 hv
      subst h1
      subst h2
      rw [callsOf_cons_call, callsOf_cons_prog]
      simp only [List.length_cons]
      omega

/-- Splitting a trace at a high progress event cannot land inside a prefix
all of whose events are low progress values: the split point lies in the
remainder. -/
theorem split_past_low {A rest t₁ t₂ : List Ev} {v : Nat}
    (hA : ∀ e ∈ A, ∃ w, e = Ev.prog w ∧ w < 100)
    (heq : A ++ rest = t₁ ++ Ev.prog v :: t₂) (hv : 100 ≤ v) :
    ∃ t₁', t₁ = A ++ t₁' ∧ rest = t₁' ++ Ev.prog v :: t₂ := by
  rcases List.append_eq_append_iff.mp heq with ⟨a', h1, h2⟩ | ⟨c', h1, h2⟩
  · exact ⟨a', h1, h2⟩
  · cases c' with
    | nil =>
      rw [List.append_nil] at h1
      rw [List.nil_append] at h2
      exact ⟨[], by rw [List.append_nil, h1], by rw [List.nil_append, ← h2]⟩
    | cons e c'' =>
      exfalso
      have he : e ∈ A := by
        rw [h1]
        exact List.mem_append_right _ (List.mem_cons_self _ _)
      obtain ⟨w, hw, hlt⟩ := hA e he
      rw [List.cons_append] at h2
      injection h2 with hh _
      rw [← hh] at hw
      injection hw with hvw
      omega

/-- C6: for every job whose converter basename lowercases to
`paaconverter.exe`, a run in which packing succeeds and cancellation is
never requested spawns exactly one external process for the whole job, with
the argument list `-batch <outputDir> -output <outputDir> -quiet` after the
converter path — never one process per produced PNG. -/
theorem C6_batch_single_call (resample : Resample) (fs : FS) (env : ProcEnv)
    (job : ConvertJob)
    (hexe : lowerStr (basename job.converter_path) = "paaconverter.exe")
    (hc : ∀ k, env.cancelFlag k = false)
    (hok : (packPaths resample fs job).isSome = true) :
    callsOf (workerRun resample fs env job) =
      [[job.converter_path, "-batch", job.output_dir, "-output", job.output_dir,
        "-quiet"]] := by
  unfold packPaths at hok
  cases hcv : convert_to_png resample fs job with
  | error e => rw [hcv] at hok; simp at hok
  | ok outs =>
    have hcont : containsSub "paaconverter.exe".data
        (lowerStr (basename job.converter_path)).data = true := by
      rw [hexe]
      exact containsSub_self _
    unfold workerRun
    simp only [hcv]
    rw [saveLoop_noCancel env hc]
    simp only [hcont, Bool.false_eq_true, ite_false, ite_true]
    by_cases hex : env.exitCode 0 ≠ 0
    · rw [if_pos hex, callsOf_append, callsOf_progEvs]
      rfl
    · rw [if_neg hex, callsOf_append, callsOf_progEvs]
      rfl

/-- An external environment in which every process succeeds with empty
stderr and cancellation is never requested. -/
def env0 : ProcEnv := ⟨fun _ => 0, fun _ => "", fun _ => false⟩

/-- Witness job for batch mode: `jobW` with the PAAConverter executable. -/
def jobB : ConvertJob := { jobW with converter_path := "/tools/PAAConverter.exe" }

/-- C6 witness: the batch theorem applied to the concrete job `jobB`. -/
theorem C6_batch_single_call_witness :
    (lowerStr (basename jobB.converter_path) = "paaconverter.exe" ∧
      (∀ k, env0.cancelFlag k = false) ∧
      (packPaths lanczosBox fsW jobB).isSome = true) ∧
    callsOf (workerRun lanczosBox fsW env0 jobB) =
      [[jobB.converter_path, "-batch", jobB.output_dir, "-output", jobB.output_dir,
        "-quiet"]] :=
  ⟨⟨by decide, fun _ => rfl, by decide⟩,
    C6_batch_single_call lanczosBox fsW env0 jobB (by decide) (fun _ => rfl) (by decide)⟩

/-- Per-file witness job whose base name itself contains ".png". -/
def jobC7 : ConvertJob :=
  { jobW with base_name := "tex.png", output_dir := "/o", selections := ["co"] }

/-- C7 counterexample: with base name "tex.png" the produced PNG is
"/o/tex.png_co.png" and the single per-file call's output argument is
"/o/tex.paa_co.paa", because `str.replace` rewrites every occurrence of
".png" in the path; that argument does not even extend the PNG's stem
"/o/tex.png_co", so it is not a sibling path with the same stem and a
different extension. -/
theorem C7_counterexample :
    callsOf (workerRun lanczosBox fsW env0 jobC7) =
      [["/tools/ImageToPAA.exe", "/o/tex.png_co.png", "/o/tex.paa_co.paa"]] ∧
    isPre "/o/tex.png_co".data "/o/tex.paa_co.paa".data = false := by
  decide

/-- C7 (amended): in per-file mode (converter basename lowercasing to
`imagetopaa.exe`), with packing succeeding, no cancellation, and every
process exiting zero, the worker spawns exactly one process per produced
PNG — each given the PNG path and the path obtained by replacing every
occurrence of ".png" in it with ".paa" (which is the same-stem sibling
whenever ".png" occurs only as the final extension) — the run ends
successfully, and any progress value of at least 100 is emitted only after
all the per-file calls. -/
theorem C7_perfile_amended (resample : Resample) (fs : FS) (env : ProcEnv)
    (job : ConvertJob) (pngs : List String)
    (hexe : lowerStr (basename job.converter_path) = "imagetopaa.exe")
    (hp : packPaths resample fs job = some pngs)
    (hn : 0 < pngs.length)
    (hc : ∀ k, env.cancelFlag k = false)
    (he : ∀ c, env.exitCode c = 0) :
    callsOf (workerRun resample fs env job) = pngs.map (cmdFor job.converter_path) ∧
    (workerRun resample fs env job).getLast? = some (Ev.doneE true pngs "") ∧
    ∀ t₁ v t₂, workerRun resample fs env job = t₁ ++ Ev.prog v :: t₂ → 100 ≤ v →
      pngs.length ≤ (callsOf t₁).length := by
  unfold packPaths at hp
  cases hcv : convert_to_png resample fs job with
  | error e => rw [hcv] at hp; cases hp
  | ok outs =>
    rw [hcv] at hp
    injection hp with hp
    have hncont : containsSub "paaconverter.exe".data
        (lowerStr (basename job.converter_path)).data = false := by
      rw [hexe]
      decide
    have htr : workerRun resample fs env job =
        progEvs pngs.length 1 pngs ++ (pfEvs job.converter_path pngs.length 1 pngs ++
          [Ev.prog 100, Ev.doneE true pngs ""]) := by
      unfold workerRun
      simp only [hcv, hp]
      rw [saveLoop_noCancel env hc]
      simp only [hncont]
      rw [perFileLoop_allOk env _ _ hc he]
      simp
    have hA := progEvs_events pngs.length pngs 1 (by omega)
    refine ⟨?_, ?_, ?_⟩
    · rw [htr, callsOf_append, callsOf_append, callsOf_progEvs, callsOf_pfEvs,
        callsOf_cons_prog, callsOf_cons_done,
        show callsOf ([] : List Ev) = [] from rfl]
      simp
    · rw [htr]
      rw [show pfEvs job.converter_path pngs.length 1 pngs ++
          [Ev.prog 100, Ev.doneE true pngs ""] =
        (pfEvs job.converter_path pngs.length 1 pngs ++ [Ev.prog 100]) ++
          [Ev.doneE true pngs ""] by simp]
      rw [← List.append_assoc, List.getLast?_concat]
    · intro t₁ v t₂ heq hv
      rw [htr] at heq
      obtain ⟨t₁', ht1, hrest⟩ := split_past_low hA heq hv
      rcases List.append_eq_append_iff.mp hrest with ⟨a', h1, h2⟩ | ⟨c', h1, h2⟩
      · -- the split lands in the final [prog 100, done] tail
        cases a' with
        | nil =>
          rw [List.append_nil] at h1
          rw [ht1, callsOf_append, callsOf_progEvs, List.nil_append, h1, callsOf_pfEvs]
          simp
        | cons e a'' =>
          cases a'' with
          | nil =>
            exfalso
            rw [List.cons_append, List.nil_append] at h2
            injection h2 with hh h2'
            injection h2' with hh2 h2''
            exact Ev.noConfusion hh2
          | cons f a''' =>
            exfalso
            have hlen := congrArg List.length h2
            simp at hlen
      · -- the split lands inside the per-file events
        cases c' with
        | nil =>
          rw [List.append_nil] at h1
          rw [ht1, callsOf_append, callsOf_progEvs, List.nil_append, ← h1, callsOf_pfEvs]
          simp
        | cons e c'' =>
          rw [List.cons_append] at h2
          injection h2 with hh h2'
          rw [← hh] at h1
          have hsp := pfEvs_split job.converter_path pngs.length pngs 1 hn (by omega)
            t₁' v c'' h1 hv
          rw [ht1, callsOf_append, callsOf_progEvs, List.nil_append]
          omega

/-- The PNG paths produced by `jobW`. -/
def pngsW : List String :=
  ["/out/tex_co.png", "/out/tex_nohq.png", "/out/tex_as.png", "/out/tex_smdi.png"]

/-- C7 witness: the amended per-file theorem applied to the concrete job
`jobW` (four variants) in the all-success environment. -/
theorem C7_perfile_amended_witness :
    (lowerStr (basename jobW.converter_path) = "imagetopaa.exe" ∧
      packPaths lanczosBox fsW jobW = some pngsW ∧
      0 < pngsW.length ∧
      (∀ k, env0.cancelFlag k = false) ∧
      (∀ c, env0.exitCode c = 0)) ∧
    callsOf (workerRun lanczosBox fsW env0 jobW) =
      pngsW.map (cmdFor jobW.converter_path) ∧
    (workerRun lanczosBox fsW env0 jobW).getLast? = some (Ev.doneE true pngsW "") :=
  ⟨⟨by decide, by decide, by decide, fun _ => rfl, fun _ => rfl⟩,
    (C7_perfile_amended lanczosBox fsW env0 jobW pngsW (by decide) (by decide) (by decide)
      (fun _ => rfl) (fun _ => rfl)).1,
    (C7_perfile_amended lanczosBox fsW env0 jobW pngsW (by decide) (by decide) (by decide)
      (fun _ => rfl) (fun _ => rfl)).2.1⟩

/-- A cons with nonempty tail keeps the tail's last element. -/
theorem getLast?_cons_some {α : Type} (a : α) {l : List α} {x : α}
    (h : l.getLast? = some x) : (a :: l).getLast? = some x := by
  cases l with
  | nil => cases h
  | cons b bs =>
    rw [List.getLast?_cons_cons]
    exact h

/-- Variant of `perFileLoop_allOk` only requiring the exit codes actually
sampled (indices `cidx` to `cidx + pngs.length - 1`) to be zero. -/
theorem perFileLoop_allOk_of_range (env : ProcEnv) (conv : String) (n : Nat)
    (hc : ∀ k, env.cancelFlag k = false) :
    ∀ pngs poll cidx j, (∀ i, i < pngs.length → env.exitCode (cidx + i) = 0) →
    perFileLoop env conv n poll cidx j pngs = (pfEvs conv n j pngs, true) := by
  intro pngs
  induction pngs with
  | nil => intro poll cidx j _; rfl
  | cons p rest ih =>
    intro poll cidx j he
    have he0 : env.exitCode cidx = 0 := by simpa using he 0 (by simp)
    have hrest : ∀ i, i < rest.length → env.exitCode (cidx + 1 + i) = 0 := by
      intro i hi
      rw [show cidx + 1 + i = cidx + (i + 1) by omega]
      exact he (i + 1) (by simp; omega)
    simp [perFileLoop, pfEvs, hc poll, he0, ih (poll + 1) (cidx + 1) (j + 1) hrest]

/-- With no cancellation and the first non-zero exit at relative index `k`
within range, the per-file loop spawns exactly `k + 1` processes, aborts,
and ends with a failure report containing the captured stderr of the
failing process. -/
theorem perFileLoop_firstFail (env : ProcEnv) (conv : String) (n : Nat)
    (hc : ∀ k, env.cancelFlag k = false) :
    ∀ pngs poll cidx j k, env.exitCode (cidx + k) ≠ 0 →
    (∀ c, c < k → env.exitCode (cidx + c) = 0) → k < pngs.length →
    (perFileLoop env conv n poll cidx j pngs).2 = false ∧
    (callsOf (perFileLoop env conv n poll cidx j pngs).1).length = k + 1 ∧
    ∃ m, (perFileLoop env conv n poll cidx j pngs).1.getLast? =
        some (Ev.doneE false [] m) ∧
      strContains m (env.stderrTxt (cidx + k)) = true := by
  intro pngs
  induction pngs with
  | nil =>
    intro poll cidx j k _ _ hlen
    exact absurd hlen (by simp)
  | cons p rest ih =>
    intro poll cidx j k hk hprev hlen
    cases k with
    | zero =>
      have hk0 : env.exitCode cidx ≠ 0 := by simpa using hk
      rw [show perFileLoop env conv n poll cidx j (p :: rest) =
        if env.cancelFlag poll then ([Ev.doneE false [] "Cancelled"], false)
        else if env.exitCode cidx ≠ 0 then
          ([Ev.call (cmdFor conv p), Ev.doneE false []
            ("Converter error: " ++ procErr env cidx (cmdFor conv p))], false)
        else
          (Ev.call (cmdFor conv p) :: Ev.prog (60 + 40 * j / max 1 n) ::
            (perFileLoop env conv n (poll + 1) (cidx + 1) (j + 1) rest).1,
            (perFileLoop env conv n (poll + 1) (cidx + 1) (j + 1) rest).2) from rfl]
      rw [hc poll]
      rw [if_neg Bool.false_ne_true, if_pos hk0]
      refine ⟨rfl, rfl, "Converter error: " ++ procErr env cidx (cmdFor conv p), rfl, ?_⟩
      exact strContains_procErr "Converter error: " env cidx (cmdFor conv p)
    | succ k' =>
      have hx0 : env.exitCode cidx = 0 := by simpa using hprev 0 (by omega)
      have hk' : env.exitCode (cidx + 1 + k') ≠ 0 := by
        rw [show cidx + 1 + k' = cidx + (k' + 1) by omega]
        exact hk
      have hprev' : ∀ c, c < k' → env.exitCode (cidx + 1 + c) = 0 := by
        intro c hcc
        rw [show cidx + 1 + c = cidx + (c + 1) by omega]
        exact hprev (c + 1) (by omega)
      have hlen' : k' < rest.length := by simpa using Nat.lt_of_succ_lt_succ (by simpa using hlen)
      obtain ⟨ih1, ih2, m, ihl, ihc⟩ := ih (poll + 1) (cidx + 1) (j + 1) k' hk' hprev' hlen'
      rw [show perFileLoop env conv n poll cidx j (p :: rest) =
        if env.cancelFlag poll then ([Ev.doneE false [] "Cancelled"], false)
        else if env.exitCode cidx ≠ 0 then
          ([Ev.call (cmdFor conv p), Ev.doneE false []
            ("Converter error: " ++ procErr env cidx (cmdFor conv p))], false)
        else
          (Ev.call (cmdFor conv p) :: Ev.prog (60 + 40 * j / max 1 n) ::
            (perFileLoop env conv n (poll + 1) (cidx + 1) (j + 1) rest).1,
            (perFileLoop env conv n (poll + 1) (cidx + 1) (j + 1) rest).2) from rfl]
      rw [hc poll]
      rw [if_neg Bool.false_ne_true,
        if_neg (show ¬env.exitCode cidx ≠ 0 from fun h => h hx0)]
      refine ⟨ih1, ?_, m, ?_, ?_⟩
      · show (callsOf (Ev.call (cmdFor conv p) :: Ev.prog (60 + 40 * j / max 1 n) ::
          (perFileLoop env conv n (poll + 1) (cidx + 1) (j + 1) rest).1)).length = k' + 1 + 1
        rw [callsOf_cons_call, callsOf_cons_prog, List.length_cons]
        omega
      · show (Ev.call (cmdFor conv p) :: Ev.prog (60 + 40 * j / max 1 n) ::
          (perFileLoop env conv n (poll + 1) (cidx + 1) (j + 1) rest).1).getLast? =
          some (Ev.doneE false [] m)
        exact getLast?_cons_some _ (getLast?_cons_some _ ihl)
      · rw [show cidx + (k' + 1) = cidx + 1 + k' by omega]
        exact ihc

/-- C8: with no cancellation, a packing failure aborts the run before any
external process is spawned and reports a failure; and whenever the k-th
spawned process is the first to exit non-zero, no further process is
spawned (exactly k + 1 in total) and the run terminates with a failure
report whose message contains that process's captured stderr. -/
theorem C8_failfast (resample : Resample) (fs : FS) (env : ProcEnv) (job : ConvertJob)
    (hc : ∀ k, env.cancelFlag k = false) :
    (∀ e, convert_to_png resample fs job = Except.error e →
      callsOf (workerRun resample fs env job) = [] ∧
      workerRun resample fs env job =
        [Ev.doneE false [] ("Unexpected error: " ++ e)]) ∧
    (∀ k, env.exitCode k ≠ 0 → (∀ c, c < k → env.exitCode c = 0) →
      k < (callsOf (workerRun resample fs env job)).length →
      (callsOf (workerRun resample fs env job)).length = k + 1 ∧
      ∃ m, (workerRun resample fs env job).getLast? = some (Ev.doneE false [] m) ∧
        strContains m (env.stderrTxt k) = true) := by
  constructor
  · intro e hcv
    unfold workerRun
    simp only [hcv]
    exact ⟨rfl, trivial⟩
  · intro k hk hprev hreach
    cases hcv : convert_to_png resample fs job with
    | error e =>
      exfalso
      unfold workerRun at hreach
      simp only [hcv] at hreach
      simp [callsOf] at hreach
    | ok outs =>
      by_cases hbx : containsSub "paaconverter.exe".data
          (lowerStr (basename job.converter_path)).data = true
      · by_cases hex : env.exitCode 0 ≠ 0
        · have htr : workerRun resample fs env job =
              progEvs (outs.map Prod.fst).length 1 (outs.map Prod.fst) ++
                [Ev.call [job.converter_path, "-batch", job.output_dir, "-output",
                  job.output_dir, "-quiet"],
                 Ev.doneE false [] ("Converter error: " ++ procErr env 0
                  [job.converter_path, "-batch", job.output_dir, "-output",
                    job.output_dir, "-quiet"])] := by
            unfold workerRun
            simp only [hcv]
            rw [saveLoop_noCancel env hc]
            simp only [hbx, Bool.false_eq_true, ite_false, ite_true, if_pos hex]
          have hcalls : callsOf (workerRun resample fs env job) =
              [[job.converter_path, "-batch", job.output_dir, "-output",
                job.output_dir, "-quiet"]] := by
            rw [htr, callsOf_append, callsOf_progEvs]
            rfl
          rw [hcalls] at hreach
          simp at hreach
          subst hreach
          refine ⟨by rw [hcalls]; rfl,
            "Converter error: " ++ procErr env 0 [job.converter_path, "-batch",
              job.output_dir, "-output", job.output_dir, "-quiet"], ?_, ?_⟩
          · rw [htr, List.getLast?_append_cons]
            rfl
          · exact strContains_procErr _ env 0 _
        · exfalso
          have htr : workerRun resample fs env job =
              progEvs (outs.map Prod.fst).length 1 (outs.map Prod.fst) ++
                [Ev.call [job.converter_path, "-batch", job.output_dir, "-output",
                  job.output_dir, "-quiet"],
                 Ev.prog 100, Ev.doneE true (outs.map Prod.fst) ""] := by
            unfold workerRun
            simp only [hcv]
            rw [saveLoop_noCancel env hc]
            simp only [hbx, Bool.false_eq_true, ite_false, ite_true, if_neg hex]
          have hcalls : callsOf (workerRun resample fs env job) =
              [[job.converter_path, "-batch", job.output_dir, "-output",
                job.output_dir, "-quiet"]] := by
            rw [htr, callsOf_append, callsOf_progEvs]
            rfl
          rw [hcalls] at hreach
          simp at hreach
          subst hreach
          exact hex hk
      · have hbxf : containsSub "paaconverter.exe".data
            (lowerStr (basename job.converter_path)).data = false := by
          simpa using hbx
        by_cases hkl : k < (outs.map Prod.fst).length
        · obtain ⟨hf2, hflen, m, hlast, hcm⟩ :=
            perFileLoop_firstFail env job.converter_path (outs.map Prod.fst).length hc
              (outs.map Prod.fst) (0 + (outs.map Prod.fst).length) 0 1 k
              (by simpa using hk) (fun c hcc => by simpa using hprev c hcc) hkl
          have htr : workerRun resample fs env job =
              progEvs (outs.map Prod.fst).length 1 (outs.map Prod.fst) ++
                (perFileLoop env job.converter_path (outs.map Prod.fst).length
                  (0 + (outs.map Prod.fst).length) 0 1 (outs.map Prod.fst)).1 := by
            unfold workerRun
            simp only [hcv]
            rw [saveLoop_noCancel env hc]
            simp only [hbxf, Bool.false_eq_true, ite_false, ite_true, hf2]
          refine ⟨?_, m, ?_, ?_⟩
          · rw [htr, callsOf_append, callsOf_progEvs, List.nil_append]
            exact hflen
          · rw [htr, List.getLast?_append_of_ne_nil _
              (by intro h; rw [h] at hlast; cases hlast)]
            exact hlast
          · simpa using hcm
        · exfalso
          have hall : ∀ i, i < (outs.map Prod.fst).length →
              env.exitCode (0 + i) = 0 := by
            intro i hi
            simp only [Nat.zero_add]
            exact hprev i (by omega)
          have htr : workerRun resample fs env job =
              progEvs (outs.map Prod.fst).length 1 (outs.map Prod.fst) ++
                (pfEvs job.converter_path (outs.map Prod.fst).length 1
                  (outs.map Prod.fst) ++
                 [Ev.prog 100, Ev.doneE true (outs.map Prod.fst) ""]) := by
            unfold workerRun
            simp only [hcv]
            rw [saveLoop_noCancel env hc]
            simp only [hbxf, Bool.false_eq_true, ite_false, ite_true]
            rw [perFileLoop_allOk_of_range env _ _ hc _ _ _ _ hall]
            simp
          rw [htr, callsOf_append, callsOf_append, callsOf_progEvs, callsOf_pfEvs,
            callsOf_cons_prog, callsOf_cons_done,
            show callsOf ([] : List Ev) = [] from rfl] at hreach
          simp at hreach
          simp only [List.length_map] at hkl
          omega

/-- An environment whose every process fails with stderr "boom". -/
def envFail : ProcEnv := ⟨fun _ => 1, fun _ => "boom", fun _ => false⟩

/-- C8 witness: the fail-fast theorem applied to `jobW` in an environment
whose first process exits with status 1 and stderr "boom". -/
theorem C8_failfast_witness :
    ((∀ k, envFail.cancelFlag k = false) ∧ envFail.exitCode 0 ≠ 0 ∧
      0 < (callsOf (workerRun lanczosBox fsW envFail jobW)).length) ∧
    ((callsOf (workerRun lanczosBox fsW envFail jobW)).length = 0 + 1 ∧
      ∃ m, (workerRun lanczosBox fsW envFail jobW).getLast? =
          some (Ev.doneE false [] m) ∧
        strContains m (envFail.stderrTxt 0) = true) :=
  ⟨⟨fun _ => rfl, by decide, by decide⟩,
    (C8_failfast lanczosBox fsW envFail jobW (fun _ => rfl)).2 0 (by decide)
      (fun c hcc => absurd hcc (by omega)) (by decide)⟩

/-- C9: in per-file mode with three produced PNGs, when the cancel flag is
still unset at the first four polls (the three save reports and the
checkpoint before the first conversion) and set at the fifth poll — i.e.
set after the first per-file conversion completes — the worker spawns only
the first external process and terminates with the `(False, [], "Cancelled")`
outcome, which differs from every failure outcome
`(False, [], "Converter error: ...")`. -/
theorem C9_cancel_after_first (resample : Resample) (fs : FS) (env : ProcEnv)
    (job : ConvertJob) (pngs : List String)
    (hexe : lowerStr (basename job.converter_path) = "imagetopaa.exe")
    (hp : packPaths resample fs job = some pngs)
    (h3 : pngs.length = 3)
    (hcf : ∀ k, k < 4 → env.cancelFlag k = false)
    (hct : env.cancelFlag 4 = true)
    (he0 : env.exitCode 0 = 0) :
    (callsOf (workerRun resample fs env job)).length = 1 ∧
    (workerRun resample fs env job).getLast? = some (Ev.doneE false [] "Cancelled") ∧
    ∀ s, "Cancelled" ≠ "Converter error: " ++ s := by
  obtain ⟨p1, p2, p3, hpngs⟩ := List.length_eq_three.mp h3
  unfold packPaths at hp
  cases hcv : convert_to_png resample fs job with
  | error e => rw [hcv] at hp; cases hp
  | ok outs =>
    rw [hcv] at hp
    injection hp with hp
    have hbxf : containsSub "paaconverter.exe".data
        (lowerStr (basename job.converter_path)).data = false := by
      rw [hexe]
      decide
    have htr : workerRun resample fs env job =
        [Ev.prog 33, Ev.prog 46, Ev.prog 60,
          Ev.call (cmdFor job.converter_path p1), Ev.prog 73,
          Ev.doneE false [] "Cancelled"] := by
      unfold workerRun
      simp only [hcv, hp, hpngs]
      norm_num [saveLoop, perFileLoop, hcf 0 (by norm_num), hcf 1 (by norm_num),
        hcf 2 (by norm_num), hcf 3 (by norm_num), hct, he0, hbxf]
    refine ⟨?_, ?_, ?_⟩
    · rw [htr]
      rfl
    · rw [htr]
      rfl
    · intro s h
      have hlen := congrArg String.length h
      rw [String.length_append] at hlen
      rw [show ("Cancelled" : String).length = 9 from rfl,
        show ("Converter error: " : String).length = 17 from rfl] at hlen
      omega

/-- Witness job for cancellation: three variants. -/
def jobC9 : ConvertJob := { jobW with selections := ["co", "nohq", "as"] }

/-- Environment whose cancel flag turns on from the fifth poll. -/
def envC9 : ProcEnv := ⟨fun _ => 0, fun _ => "", fun k => decide (4 ≤ k)⟩

/-- The PNG paths produced by `jobC9`. -/
def pngsC9 : List String := ["/out/tex_co.png", "/out/tex_nohq.png", "/out/tex_as.png"]

/-- C9 witness: the cancellation theorem applied to the concrete job
`jobC9` in the environment `envC9`. -/
theorem C9_cancel_after_first_witness :
    (lowerStr (basename jobC9.converter_path) = "imagetopaa.exe" ∧
      packPaths lanczosBox fsW jobC9 = some pngsC9 ∧
      pngsC9.length = 3 ∧
      (∀ k, k < 4 → envC9.cancelFlag k = false) ∧
      envC9.cancelFlag 4 = true ∧
      envC9.exitCode 0 = 0) ∧
    ((callsOf (workerRun lanczosBox fsW envC9 jobC9)).length = 1 ∧
      (workerRun lanczosBox fsW envC9 jobC9).getLast? =
        some (Ev.doneE false [] "Cancelled")) :=
  ⟨⟨by decide, by decide, by decide,
      fun k hk => by
        show decide (4 ≤ k) = false
        simp only [decide_eq_false_iff_not]
        omega,
      by decide, rfl⟩,
    (C9_cancel_after_first lanczosBox fsW envC9 jobC9 pngsC9 (by decide) (by decide)
      (by decide)
      (fun k hk => by
        show decide (4 ≤ k) = false
        simp only [decide_eq_false_iff_not]
        omega)
      (by decide) rfl).1,
    (C9_cancel_after_first lanczosBox fsW envC9 jobC9 pngsC9 (by decide) (by decide)
      (by decide)
      (fun k hk => by
        show decide (4 ≤ k) = false
        simp only [decide_eq_false_iff_not]
        omega)
      (by decide) rfl).2.1⟩

/-- Job with an unreadable Roughness path, selecting only `co`. -/
def jobC10 : ConvertJob :=
  { input_paths := ⟨"bc.png", "n.png", "ao.png", "m.png", "bad.tga"⟩,
    output_dir := "/out", base_name := "tex", size := 1,
    selections := ["co"], normal_convention := "OpenGL",
    converter_path := "/tools/ImageToPAA.exe" }

/-- The UI field state corresponding to `jobC10`. -/
def stC10 : UIState :=
  ⟨jobC10.input_paths, "tex", "/out", "/tools/ImageToPAA.exe", ["co"]⟩

/-- C10 counterexample: all five paths are non-empty so `_run` starts the
job, the Roughness path does not decode to an image, yet packing the
`co`-only selection succeeds and writes its output — so readability of all
five inputs is not established before the job starts, and the unreadable
input is not fatal. -/
theorem C10_counterexample :
    uiStartsJob stC10 = true ∧
    (fsW stC10.input_paths.roughness).isNone = true ∧
    packPaths lanczosBox fsW jobC10 = some ["/out/tex_co.png"] := by
  decide

/-- C10 (amended): `_run` requires all five input paths to be non-empty
before the job starts, even when the selections do not use every input;
but readability as an image is checked only when a selected variant opens
the input, so a job selecting only `co` with a readable BaseColor succeeds
regardless of the other four inputs. -/
theorem C10_validation_amended (st : UIState) (resample : Resample) (fs : FS)
    (job : ConvertJob) (im : SrcImage) :
    ((st.input_paths.baseColor = "" ∨ st.input_paths.normal = "" ∨
        st.input_paths.ao = "" ∨ st.input_paths.metallic = "" ∨
        st.input_paths.roughness = "") →
      uiStartsJob st = false) ∧
    (job.selections = ["co"] → fs job.input_paths.baseColor = some im →
      (packPaths resample fs job).isSome = true) := by
  constructor
  · intro h
    unfold uiStartsJob
    rw [if_pos (Or.inl h)]
  · intro hsel him
    unfold packPaths convert_to_png
    rw [hsel]
    simp [mapME, convertOne, openImage, him]

/-- UI state with an empty Roughness path. -/
def stEmpty : UIState :=
  ⟨⟨"bc.png", "n.png", "ao.png", "m.png", ""⟩, "tex", "/out",
    "/tools/ImageToPAA.exe", ["co"]⟩

/-- C10 witness: the amended theorem applied to the state with an empty
Roughness path and to the `co`-only job with unreadable Roughness. -/
theorem C10_validation_amended_witness :
    (stEmpty.input_paths.roughness = "" ∧ jobC10.selections = ["co"] ∧
      fsW jobC10.input_paths.baseColor = some rgbProbe) ∧
    (uiStartsJob stEmpty = false ∧ (packPaths lanczosBox fsW jobC10).isSome = true) :=
  ⟨⟨rfl, rfl, rfl⟩,
    (C10_validation_amended stEmpty lanczosBox fsW jobC10 rgbProbe).1
      (Or.inr (Or.inr (Or.inr (Or.inr rfl)))),
    (C10_validation_amended stEmpty lanczosBox fsW jobC10 rgbProbe).2 rfl rfl⟩

end TexConvert
